import Mathlib

/-!
Verification of the discovery client in
`src/bcvtb/lib/bacnet-stack/src-bcvtb/globalwi.c`.

The program broadcasts one Who-Is query over a device-id range, then polls
the datalink in a `for (;;)` loop: each iteration samples `time(NULL)`,
performs one bounded-wait `datalink_receive` (1 ms poll timeout), hands a
received datagram to `npdu_handler` (which dispatches to the registered
service handlers), breaks if `Error_Detected` is set, accumulates the
whole-second delta `current_seconds - last_seconds` into `total_seconds`,
and breaks when `total_seconds > timeout_seconds`.  After the loop a
compaction pass copies the address cache into `device_id_array` and prints
one device id per line; `main` returns 0.

The shallow embedding below models one loop iteration as an `IterInput`
(the `time(NULL)` sample of that iteration plus the decoded protocol event
of the received datagram, `none` when `datalink_receive` returned 0 bytes),
and the whole loop as structural recursion over the list of iteration
inputs.  `time_t` values are modelled as `Int`, device ids as `Nat`.
-/

set_option maxHeartbeats 1000000

namespace GlobalWI

/-- Decoded inbound protocol events, as dispatched by `npdu_handler` /
`apdu_handler` to the handlers registered in `Init_Service_Handlers`
(globalwi.c lines 88-105): I-Am (Identification), Abort, Reject, and the
unrecognized-service fallback. -/
inductive Event where
  | identification (device_id : Nat) (net : Nat) (mac : List Nat) (max_apdu : Nat)
  | abort (reason : Nat)
  | reject (reason : Nat)
  | unrecognizedService
deriving DecidableEq

/-- One record of the address cache: device instance, network number, MAC
and max-APDU, as stored by `address_add` and read back by
`address_get_by_index`. -/
structure DeviceRecord where
  device_id : Nat
  net : Nat
  mac : List Nat
  max_apdu : Nat
deriving DecidableEq

/-- Modelled from the spec: `AddressCache.insert_if_absent` (the address
cache lives in the library file address.c, which is not under src/; only
its callers are).  Spec 4.1: returns true and appends iff the device_id is
not yet present and capacity is not exhausted; a duplicate or a
capacity-exceeding insert mutates nothing.  `cap` stands for the constant
MAX_ADDRESS_CACHE.  Insertion order is preserved (spec 3: AddressCache is
an ordered collection, enumeration order is insertion order). -/
def insert_if_absent (cap : Nat) (cache : List DeviceRecord) (r : DeviceRecord) :
    Bool × List DeviceRecord :=
  if cache.any (fun q => q.device_id == r.device_id) then (false, cache)
  else if cache.length < cap then (true, cache ++ [r])
  else (false, cache)

/-- Effect of one dispatched event on the address cache: only
`handler_i_am_add` (registered for I-Am) inserts; `MyAbortHandler`,
`MyRejectHandler` and `handler_unrecognized_service` never touch the
cache (globalwi.c lines 60-86 touch only `Error_Detected` and stderr). -/
def cacheStep (cap : Nat) (cache : List DeviceRecord) : Event → List DeviceRecord
  | .identification id net mac m => (insert_if_absent cap cache ⟨id, net, mac, m⟩).2
  | _ => cache

/-- Effect of one dispatched event on the `Error_Detected` flag:
`MyAbortHandler` (line 72) and `MyRejectHandler` (line 85) set it to true;
no handler ever writes false. -/
def errStep (err : Bool) : Event → Bool
  | .abort _ => true
  | .reject _ => true
  | _ => err

/-- One polling-loop iteration input: the `time(NULL)` sample taken at the
start of the iteration (line 281), and the decoded event of the datagram
returned by `datalink_receive`, or `none` when the receive timed out with
0 bytes (line 283). -/
structure IterInput where
  clock : Int
  datagram : Option Event
deriving DecidableEq

/-- Cache effect of one iteration: `npdu_handler` runs only when
`pdu_len` is nonzero (line 285). -/
def inputCacheStep (cap : Nat) (cache : List DeviceRecord) (inp : IterInput) :
    List DeviceRecord :=
  match inp.datagram with
  | some e => cacheStep cap cache e
  | none => cache

/-- Effect of one iteration on `Error_Detected`. -/
def inputErrStep (err : Bool) (inp : IterInput) : Bool :=
  match inp.datagram with
  | some e => errStep err e
  | none => err

/-- Terminal/loop status of the session: `Running` means the supplied
iteration inputs were exhausted with neither break taken; `Aborted` is the
`Error_Detected` break (line 288-289); `TimedOut` is the
`total_seconds > timeout_seconds` break (line 298-299). -/
inductive SessionState where
  | Running
  | TimedOut
  | Aborted
deriving DecidableEq

/-- Result of running the polling loop: terminal status, final address
cache, final `Error_Detected`, final `total_seconds`, and the number of
loop iterations executed (each iteration performs exactly one
`datalink_receive`). -/
structure SessionResult where
  state : SessionState
  cache : List DeviceRecord
  err : Bool
  totalSeconds : Int
  itersRun : Nat
deriving DecidableEq

/-- The `for (;;)` loop of `main` (lines 279-302), one constructor case per
iteration: sample the clock, receive and dispatch the datagram, break with
`Aborted` if `Error_Detected`, else accumulate
`elapsed_seconds = current_seconds - last_seconds` into `total_seconds`
and break with `TimedOut` when the total strictly exceeds
`timeout_seconds`; otherwise set `last_seconds = current_seconds` and
continue. -/
def loopAux (cap : Nat) (t : Int) :
    List IterInput → List DeviceRecord → Bool → Int → Int → Nat → SessionResult
  | [], cache, err, total, _last, iters => ⟨.Running, cache, err, total, iters⟩
  | inp :: rest, cache, err, total, last, iters =>
      if inputErrStep err inp then
        ⟨.Aborted, inputCacheStep cap cache inp, inputErrStep err inp, total, iters + 1⟩
      else if total + (inp.clock - last) > t then
        ⟨.TimedOut, inputCacheStep cap cache inp, inputErrStep err inp,
          total + (inp.clock - last), iters + 1⟩
      else
        loopAux cap t rest (inputCacheStep cap cache inp) (inputErrStep err inp)
          (total + (inp.clock - last)) inp.clock (iters + 1)

/-- The session as set up by `main`: empty cache (`address_init`),
`Error_Detected = false` (line 58), `total_seconds = 0`, and
`last_seconds` initialised to the pre-loop `time(NULL)` sample
(line 274), here `start`. -/
def runSession (cap : Nat) (t : Int) (start : Int) (inputs : List IterInput) :
    SessionResult :=
  loopAux cap t inputs [] false 0 start 0

/-- Modelled from the spec: `address_get_by_index` (address.c, not under
src/).  Spec 3/4.1: the cache is an ordered collection enumerated in
insertion order; within one session records are never removed, so index
`i` holds the `i`-th inserted record and fails beyond the current size. -/
def address_get_by_index : List DeviceRecord → Nat → Option DeviceRecord
  | [], _ => none
  | r :: _, 0 => some r
  | _ :: rest, n + 1 => address_get_by_index rest n

/-- State of the compaction pass of `main` (lines 305-332): the contents
written so far to `device_id_array`, `net_array` and `mac_array`, the
write cursor `k`, and a flag recording whether any write used an index
`k ≥ MAX_ADDRESS_CACHE` (i.e. out of the arrays' bounds). -/
structure ReportState where
  ids : List Nat
  nets : List Nat
  macs : List (List Nat)
  k : Nat
  oob : Bool
deriving DecidableEq

/-- Body of the compaction loop for one index `i`: on a successful
`address_get_by_index`, write `device_id_array[k]`, `net_array[k]` and
`mac_array[k][j]` for `j < mac_len` (all three indexed by the same `k`),
then increment `k`; on failure do nothing (lines 315-332). -/
def reportStep (cap : Nat) (s : ReportState) : Option DeviceRecord → ReportState
  | some r =>
      ⟨s.ids ++ [r.device_id], s.nets ++ [r.net], s.macs ++ [r.mac],
        s.k + 1, s.oob || decide (cap ≤ s.k)⟩
  | none => s

/-- The compaction `for (i = 0; i < MAX_ADDRESS_CACHE; i++)` loop,
with `fuel` remaining indices starting at index `i`. -/
def reportAux (cap : Nat) (get : Nat → Option DeviceRecord) :
    Nat → Nat → ReportState → ReportState
  | _i, 0, s => s
  | i, fuel + 1, s => reportAux cap get (i + 1) fuel (reportStep cap s (get i))

/-- The whole compaction pass: `k = 0` then scan indices
`0 .. MAX_ADDRESS_CACHE - 1` (line 314-315). -/
def reportRun (cap : Nat) (get : Nat → Option DeviceRecord) : ReportState :=
  reportAux cap get 0 cap ⟨[], [], [], 0, false⟩

/-- The lines printed to stdout by the final
`for (l = 0; l < k; l++) fprintf(stdout, "%u\n", device_id_array[l])`
loop (lines 348-351): the first `k` entries of `device_id_array`. -/
def printedOf (cap : Nat) (get : Nat → Option DeviceRecord) : List Nat :=
  (reportRun cap get).ids.take (reportRun cap get).k

/-- The report the session prints for a given final cache. -/
def printedLines (cap : Nat) (cache : List DeviceRecord) : List Nat :=
  printedOf cap (address_get_by_index cache)

/-- End-to-end stdout of one session: run the loop, then run the report
pass on the final cache.  The report runs unconditionally after the loop,
on both the `Aborted` and the `TimedOut` exit (lines 303-351). -/
def sessionOutput (cap : Nat) (t : Int) (start : Int) (inputs : List IterInput) :
    List Nat :=
  printedLines cap (runSession cap t start inputs).cache

/-- Device ids of the Identification events of a run of iteration inputs,
in processing order. -/
def identIds : List IterInput → List Nat
  | [] => []
  | inp :: rest =>
      match inp.datagram with
      | some (.identification id _ _ _) => id :: identIds rest
      | _ => identIds rest

/-- Whether an iteration delivers a fatal (Abort or Reject) event. -/
def fatalInput (inp : IterInput) : Bool :=
  match inp.datagram with
  | some (.abort _) => true
  | some (.reject _) => true
  | _ => false

/-- Index of the first iteration input satisfying `p`, if any. -/
def firstIdx? (p : IterInput → Bool) : List IterInput → Option Nat
  | [] => none
  | a :: l => if p a then some 0 else (firstIdx? p l).map (· + 1)

/-- Clock sample of the `n`-th iteration input (0 for an absent index). -/
def clockAt : List IterInput → Nat → Int
  | [], _ => 0
  | inp :: _, 0 => inp.clock
  | _ :: rest, n + 1 => clockAt rest n

/-- Cache after folding a run of iteration inputs, starting from `cache`. -/
def applyInputs (cap : Nat) (cache : List DeviceRecord) (inps : List IterInput) :
    List DeviceRecord :=
  inps.foldl (inputCacheStep cap) cache

/-- Spec-side characterisation (spec 8, order preservation / insert-once):
the subsequence of first occurrences of a list — each value kept at the
position of its first appearance, later duplicates dropped.  `seen` is the
set of values already emitted. -/
def firstOccurAux (seen : List Nat) : List Nat → List Nat
  | [] => []
  | a :: l => if a ∈ seen then firstOccurAux seen l else a :: firstOccurAux (seen ++ [a]) l

/-- The distinct values of a list in first-occurrence order. -/
def firstOccur (l : List Nat) : List Nat := firstOccurAux [] l

/-- The assignment `timeout_seconds = apdu_timeout() / 1000` (line 275), with the
configured APDU timeout in milliseconds as a parameter (the stored value
lives in apdu.c, outside src/). -/
def timeout_seconds_of (apdu_ms : Nat) : Nat := apdu_ms / 1000

/-- Observable actions of `main` in order: the single `Send_WhoIs`
broadcast (line 277), one receive attempt per loop iteration (line 283),
and the report lines (lines 348-351). -/
inductive Action where
  | broadcast (lo hi : Int)
  | receiveAttempt
  | reportLine (id : Nat)
deriving DecidableEq

/-- The constant `Target_Object_Instance_Min` (line 55). -/
def Target_Object_Instance_Min : Int := 0

/-- The constant `Target_Object_Instance_Max` (line 56). -/
def Target_Object_Instance_Max : Int := 4194303

/-- Whether an action is a discovery broadcast. -/
def isBroadcast : Action → Bool
  | .broadcast _ _ => true
  | _ => false

/-- Action trace of `main`: `Send_WhoIs(Target_Object_Instance_Min,
Target_Object_Instance_Max)` exactly once before the loop, then the loop's
receive attempts, then the report.  The loop body contains no send call. -/
def mainActions (cap : Nat) (t start : Int) (inputs : List IterInput) : List Action :=
  Action.broadcast Target_Object_Instance_Min Target_Object_Instance_Max ::
    (List.replicate (runSession cap t start inputs).itersRun Action.receiveAttempt ++
      (sessionOutput cap t start inputs).map Action.reportLine)

/-- Process-level model: `Init_DataLink` calls `exit(1)` when
`datalink_init` fails (lines 223-225), before the session starts;
otherwise the session runs and `main` returns 0 (line 354) regardless of
the session outcome. -/
def programRun (datalink_init_ok : Bool) (cap : Nat) (t start : Int)
    (inputs : List IterInput) : Option SessionResult × Nat :=
  if datalink_init_ok then (some (runSession cap t start inputs), 0) else (none, 1)

/-! ### Helper lemmas about the handlers and the error flag -/

theorem errStep_of_true (e : Event) : errStep true e = true := by
  cases e <;> rfl

theorem inputErrStep_of_true (inp : IterInput) : inputErrStep true inp = true := by
  unfold inputErrStep
  cases h : inp.datagram with
  | none => rfl
  | some e => exact errStep_of_true e

theorem inputErrStep_false_of_not_fatal (inp : IterInput) (h : fatalInput inp = false) :
    inputErrStep false inp = false := by
  unfold inputErrStep
  unfold fatalInput at h
  cases hd : inp.datagram with
  | none => rfl
  | some e => cases e <;> simp_all [errStep]

theorem inputErrStep_true_of_fatal (err : Bool) (inp : IterInput)
    (h : fatalInput inp = true) : inputErrStep err inp = true := by
  unfold inputErrStep
  unfold fatalInput at h
  cases hd : inp.datagram with
  | none => simp [hd] at h
  | some e => cases e <;> simp_all [errStep]

/-! ### Step lemmas for the polling loop -/

theorem loopAux_abort (cap : Nat) (t : Int) (inp : IterInput) (rest : List IterInput)
    (cache : List DeviceRecord) (err : Bool) (total last : Int) (iters : Nat)
    (h : inputErrStep err inp = true) :
    loopAux cap t (inp :: rest) cache err total last iters =
      ⟨.Aborted, inputCacheStep cap cache inp, true, total, iters + 1⟩ := by
  simp [loopAux, h]

theorem loopAux_timeout (cap : Nat) (t : Int) (inp : IterInput) (rest : List IterInput)
    (cache : List DeviceRecord) (total last : Int) (iters : Nat)
    (hnf : inputErrStep false inp = false)
    (hto : total + (inp.clock - last) > t) :
    loopAux cap t (inp :: rest) cache false total last iters =
      ⟨.TimedOut, inputCacheStep cap cache inp, false,
        total + (inp.clock - last), iters + 1⟩ := by
  simp [loopAux, hnf, hto]

theorem loopAux_cont (cap : Nat) (t : Int) (inp : IterInput) (rest : List IterInput)
    (cache : List DeviceRecord) (total last : Int) (iters : Nat)
    (hnf : inputErrStep false inp = false)
    (hto : ¬ total + (inp.clock - last) > t) :
    loopAux cap t (inp :: rest) cache false total last iters =
      loopAux cap t rest (inputCacheStep cap cache inp) false
        (total + (inp.clock - last)) inp.clock (iters + 1) := by
  simp [loopAux, hnf, hto]

/-! ### The timeout characterisation for fatal-free runs

Along a run of the loop the accumulated `total_seconds` telescopes:
entering an iteration with accumulator `total` and previous sample `last`,
the value `total - last` never changes from one iteration to the next
(the new accumulator is `total + (clock - last)` and the new `last` is
`clock`).  Writing `D` for this invariant quantity, the loop breaks with
`TimedOut` exactly at the first iteration whose clock sample `c`
satisfies `D + c > t`. -/

theorem firstIdx?_clock_prop (t D : Int) :
    ∀ (l : List IterInput) (J : Nat),
      firstIdx? (fun inp => decide (D + inp.clock > t)) l = some J →
      D + clockAt l J > t := by
  intro l
  induction l with
  | nil => intro J h; simp [firstIdx?] at h
  | cons a l ih =>
      intro J h
      by_cases hp : D + a.clock > t
      · simp [firstIdx?, hp] at h
        subst h
        simpa [clockAt] using hp
      · simp [firstIdx?, hp] at h
        obtain ⟨J0, hJ0, hJ⟩ := h
        subst hJ
        simpa [clockAt] using ih J0 hJ0

theorem loopAux_noFatal_some (cap : Nat) (t D : Int) :
    ∀ (inputs : List IterInput) (cache : List DeviceRecord)
      (total last : Int) (iters J : Nat),
      (∀ inp ∈ inputs, fatalInput inp = false) →
      D = total - last →
      firstIdx? (fun inp => decide (D + inp.clock > t)) inputs = some J →
      loopAux cap t inputs cache false total last iters =
        ⟨.TimedOut, applyInputs cap cache (inputs.take (J + 1)), false,
          D + clockAt inputs J, iters + J + 1⟩ := by
  intro inputs
  induction inputs with
  | nil => intro cache total last iters J _ _ hJ; simp [firstIdx?] at hJ
  | cons inp rest ih =>
      intro cache total last iters J hnf hD hJ
      have hnfi : fatalInput inp = false := hnf inp (List.mem_cons_self inp rest)
      have hne : inputErrStep false inp = false := inputErrStep_false_of_not_fatal inp hnfi
      by_cases hp : D + inp.clock > t
      · simp [firstIdx?, hp] at hJ
        subst hJ
        have hto : total + (inp.clock - last) > t := by
          have : total + (inp.clock - last) = D + inp.clock := by rw [hD]; ring
          omega
        rw [loopAux_timeout cap t inp rest cache total last iters hne hto]
        have htot : total + (inp.clock - last) = D + inp.clock := by rw [hD]; ring
        simp [applyInputs, clockAt, htot]
      · simp [firstIdx?, hp] at hJ
        obtain ⟨J0, hJ0, hJeq⟩ := hJ
        subst hJeq
        have hto : ¬ total + (inp.clock - last) > t := by
          have : total + (inp.clock - last) = D + inp.clock := by rw [hD]; ring
          omega
        rw [loopAux_cont cap t inp rest cache total last iters hne hto]
        have hD2 : D = total + (inp.clock - last) - inp.clock := by rw [hD]; ring
        have hrest : ∀ x ∈ rest, fatalInput x = false := by
          intro x hx; exact hnf x (List.mem_cons_of_mem inp hx)
        rw [ih (inputCacheStep cap cache inp) (total + (inp.clock - last)) inp.clock
          (iters + 1) J0 hrest hD2 hJ0]
        have h1 : iters + 1 + J0 + 1 = iters + (J0 + 1) + 1 := by omega
        simp [applyInputs, clockAt, h1]

theorem loopAux_noFatal_none (cap : Nat) (t D : Int) :
    ∀ (inputs : List IterInput) (cache : List DeviceRecord)
      (total last : Int) (iters : Nat),
      (∀ inp ∈ inputs, fatalInput inp = false) →
      D = total - last →
      firstIdx? (fun inp => decide (D + inp.clock > t)) inputs = none →
      (loopAux cap t inputs cache false total last iters).state = .Running ∧
      (loopAux cap t inputs cache false total last iters).cache =
        applyInputs cap cache inputs ∧
      (loopAux cap t inputs cache false total last iters).err = false ∧
      (loopAux cap t inputs cache false total last iters).itersRun =
        iters + inputs.length := by
  intro inputs
  induction inputs with
  | nil =>
      intro cache total last iters _ _ _
      simp [loopAux, applyInputs]
  | cons inp rest ih =>
      intro cache total last iters hnf hD hJ
      have hnfi : fatalInput inp = false := hnf inp (List.mem_cons_self inp rest)
      have hne : inputErrStep false inp = false := inputErrStep_false_of_not_fatal inp hnfi
      by_cases hp : D + inp.clock > t
      · simp [firstIdx?, hp] at hJ
      · simp [firstIdx?, hp] at hJ
        have hto : ¬ total + (inp.clock - last) > t := by
          have : total + (inp.clock - last) = D + inp.clock := by rw [hD]; ring
          omega
        rw [loopAux_cont cap t inp rest cache total last iters hne hto]
        have hD2 : D = total + (inp.clock - last) - inp.clock := by rw [hD]; ring
        have hrest : ∀ x ∈ rest, fatalInput x = false := by
          intro x hx; exact hnf x (List.mem_cons_of_mem inp hx)
        obtain ⟨h1, h2, h3, h4⟩ := ih (inputCacheStep cap cache inp)
          (total + (inp.clock - last)) inp.clock (iters + 1) hrest hD2 hJ
        refine ⟨h1, ?_, h3, ?_⟩
        · rw [h2]; simp [applyInputs]
        · rw [h4]; simp; omega

/-! ### Lemmas about the report / compaction pass -/

theorem reportAux_all_none (cap : Nat) (get : Nat → Option DeviceRecord)
    (hget : ∀ j, get j = none) :
    ∀ (fuel i : Nat) (s : ReportState), reportAux cap get i fuel s = s := by
  intro fuel
  induction fuel with
  | zero => intro i s; rfl
  | succ f ih =>
      intro i s
      simp only [reportAux, hget i, reportStep]
      exact ih (i + 1) s

theorem reportAux_shift (cap : Nat) (get : Nat → Option DeviceRecord) :
    ∀ (fuel i : Nat) (s : ReportState),
      reportAux cap get (i + 1) fuel s =
        reportAux cap (fun j => get (j + 1)) i fuel s := by
  intro fuel
  induction fuel with
  | zero => intro i s; rfl
  | succ f ih =>
      intro i s
      simp only [reportAux]
      exact ih (i + 1) (reportStep cap s (get (i + 1)))

theorem address_get_by_index_nil (j : Nat) :
    address_get_by_index [] j = none := by
  cases j <;> rfl

theorem address_get_by_index_cons_succ (r : DeviceRecord) (c : List DeviceRecord) :
    (fun j => address_get_by_index (r :: c) (j + 1)) = address_get_by_index c := by
  funext j
  rfl

/-- Scanning the first `fuel ≥ |c|` indices of the cache appends exactly
the cached device ids, nets and macs, in insertion order, and advances the
cursor by `|c|`. -/
theorem reportAux_cache (cap : Nat) :
    ∀ (c : List DeviceRecord) (fuel : Nat) (s : ReportState),
      c.length ≤ fuel →
      (reportAux cap (address_get_by_index c) 0 fuel s).ids =
        s.ids ++ c.map (fun r => r.device_id) ∧
      (reportAux cap (address_get_by_index c) 0 fuel s).k = s.k + c.length := by
  intro c
  induction c with
  | nil =>
      intro fuel s _
      rw [reportAux_all_none cap (address_get_by_index []) address_get_by_index_nil fuel 0 s]
      simp
  | cons r c2 ih =>
      intro fuel s hlen
      cases fuel with
      | zero => simp at hlen
      | succ f =>
          have hstep :
              reportAux cap (address_get_by_index (r :: c2)) 0 (f + 1) s =
                reportAux cap (address_get_by_index c2) 0 f
                  (reportStep cap s (some r)) := by
            simp only [reportAux]
            rw [reportAux_shift cap (address_get_by_index (r :: c2)) f 0
              (reportStep cap s (address_get_by_index (r :: c2) 0))]
            rw [address_get_by_index_cons_succ]
            rfl
          rw [hstep]
          have hlen2 : c2.length ≤ f := by simpa using hlen
          obtain ⟨h1, h2⟩ := ih f (reportStep cap s (some r)) hlen2
          constructor
          · rw [h1]; simp [reportStep]
          · rw [h2]; simp [reportStep]; omega

/-- The write cursor `k` advances by at most one per scanned index, so
starting from a state whose cursor leaves room for the remaining indices,
no write ever lands at an index `≥ cap` and the final cursor is bounded. -/
theorem reportAux_bounds (cap : Nat) (get : Nat → Option DeviceRecord) :
    ∀ (fuel i : Nat) (s : ReportState),
      s.oob = false → s.k + fuel ≤ cap →
      (reportAux cap get i fuel s).oob = false ∧
      (reportAux cap get i fuel s).k ≤ s.k + fuel := by
  intro fuel
  induction fuel with
  | zero => intro i s hoob _; exact ⟨hoob, Nat.le_refl _⟩
  | succ f ih =>
      intro i s hoob hroom
      simp only [reportAux]
      cases hg : get i with
      | none =>
          simp only [reportStep]
          obtain ⟨h1, h2⟩ := ih (i + 1) s hoob (by omega)
          exact ⟨h1, by omega⟩
      | some r =>
          have hwrite : s.k < cap := by omega
          have hstep : reportStep cap s (some r) =
              ⟨s.ids ++ [r.device_id], s.nets ++ [r.net], s.macs ++ [r.mac],
                s.k + 1, false⟩ := by
            simp [reportStep, hoob]
            omega
          rw [hstep]
          obtain ⟨h1, h2⟩ := ih (i + 1)
            ⟨s.ids ++ [r.device_id], s.nets ++ [r.net], s.macs ++ [r.mac],
              s.k + 1, false⟩ rfl (by simp; omega)
          exact ⟨h1, by simp at h2; omega⟩

/-- The cursor always equals the number of ids written. -/
theorem reportAux_k_ids (cap : Nat) (get : Nat → Option DeviceRecord) :
    ∀ (fuel i : Nat) (s : ReportState),
      s.k = s.ids.length →
      (reportAux cap get i fuel s).k = (reportAux cap get i fuel s).ids.length := by
  intro fuel
  induction fuel with
  | zero => intro i s h; exact h
  | succ f ih =>
      intro i s h
      simp only [reportAux]
      apply ih
      cases hg : get i with
      | none => simpa [reportStep] using h
      | some r => simp [reportStep, h]

/-- For a cache that fits (its length is at most `MAX_ADDRESS_CACHE`), the
printed report is exactly the cached device ids in insertion order. -/
theorem printedLines_eq_map (cap : Nat) (c : List DeviceRecord)
    (hlen : c.length ≤ cap) :
    printedLines cap c = c.map (fun r => r.device_id) := by
  unfold printedLines printedOf reportRun
  obtain ⟨h1, h2⟩ := reportAux_cache cap c cap ⟨[], [], [], 0, false⟩ hlen
  rw [h1, h2]
  simp

/-! ### Insert-once: the cache is the capped first-occurrence subsequence -/

theorem any_eq_mem_map (c : List DeviceRecord) (id : Nat) :
    (c.any fun q => q.device_id == id) = true ↔
      id ∈ c.map (fun r => r.device_id) := by
  rw [List.any_eq_true]
  constructor
  · rintro ⟨q, hq, hbeq⟩
    refine List.mem_map.mpr ⟨q, hq, ?_⟩
    simpa using hbeq
  · intro h
    obtain ⟨q, hq, hid⟩ := List.mem_map.mp h
    exact ⟨q, hq, by simp [hid]⟩

/-- Folding any run of events into the cache: the cached device ids are
the previously cached ones followed by the first occurrences of the new
Identification ids (those not already cached), truncated to the remaining
capacity.  Abort, Reject and UnrecognizedService events leave the cache
unchanged. -/
theorem applyInputs_firstOccur (cap : Nat) :
    ∀ (inps : List IterInput) (c : List DeviceRecord),
      c.length ≤ cap →
      (applyInputs cap c inps).map (fun r => r.device_id) =
        c.map (fun r => r.device_id) ++
          (firstOccurAux (c.map (fun r => r.device_id)) (identIds inps)).take
            (cap - c.length) := by
  intro inps
  induction inps with
  | nil => intro c _; simp [applyInputs, identIds, firstOccurAux]
  | cons inp rest ih =>
      intro c hlen
      have hstep : applyInputs cap c (inp :: rest) =
          applyInputs cap (inputCacheStep cap c inp) rest := by
        simp [applyInputs]
      rw [hstep]
      cases hd : inp.datagram with
      | none =>
          simp only [inputCacheStep, hd]
          have hids : identIds (inp :: rest) = identIds rest := by
            simp [identIds, hd]
          rw [hids]
          exact ih c hlen
      | some e =>
          cases e with
          | identification id net mac m =>
              have hids : identIds (inp :: rest) = id :: identIds rest := by
                simp [identIds, hd]
              rw [hids]
              simp only [inputCacheStep, hd, cacheStep]
              by_cases hmem : id ∈ c.map (fun r => r.device_id)
              · have hany : (c.any fun q => q.device_id == id) = true :=
                  (any_eq_mem_map c id).mpr hmem
                have hins : (insert_if_absent cap c ⟨id, net, mac, m⟩).2 = c := by
                  simp [insert_if_absent, hany]
                rw [hins]
                have hfo : firstOccurAux (c.map (fun r => r.device_id))
                    (id :: identIds rest) =
                    firstOccurAux (c.map (fun r => r.device_id)) (identIds rest) := by
                  simp [firstOccurAux, hmem]
                rw [hfo]
                exact ih c hlen
              · have hany : (c.any fun q => q.device_id == id) = false := by
                  rw [← Bool.not_eq_true]
                  intro hcon
                  exact hmem ((any_eq_mem_map c id).mp hcon)
                have hfo : firstOccurAux (c.map (fun r => r.device_id))
                    (id :: identIds rest) =
                    id :: firstOccurAux (c.map (fun r => r.device_id) ++ [id])
                      (identIds rest) := by
                  simp [firstOccurAux, hmem]
                rw [hfo]
                by_cases hfull : c.length < cap
                · have hins : (insert_if_absent cap c ⟨id, net, mac, m⟩).2 =
                      c ++ [⟨id, net, mac, m⟩] := by
                    simp [insert_if_absent, hany, hfull]
                  rw [hins]
                  have hlen2 : (c ++ [(⟨id, net, mac, m⟩ : DeviceRecord)]).length ≤ cap := by
                    simp; omega
                  rw [ih _ hlen2]
                  have hmap : (c ++ [(⟨id, net, mac, m⟩ : DeviceRecord)]).map
                      (fun r => r.device_id) =
                      c.map (fun r => r.device_id) ++ [id] := by simp
                  rw [hmap]
                  have htake : cap - c.length = (cap - (c.length + 1)) + 1 := by omega
                  rw [htake, List.take_succ_cons]
                  simp
                · have hins : (insert_if_absent cap c ⟨id, net, mac, m⟩).2 = c := by
                    simp [insert_if_absent, hany, hfull]
                  rw [hins]
                  have hcap : cap - c.length = 0 := by omega
                  rw [hcap]
                  rw [ih c hlen, hcap]
                  simp
          | abort r =>
              simp only [inputCacheStep, hd, cacheStep]
              have hids : identIds (inp :: rest) = identIds rest := by
                simp [identIds, hd]
              rw [hids]
              exact ih c hlen
          | reject r =>
              simp only [inputCacheStep, hd, cacheStep]
              have hids : identIds (inp :: rest) = identIds rest := by
                simp [identIds, hd]
              rw [hids]
              exact ih c hlen
          | unrecognizedService =>
              simp only [inputCacheStep, hd, cacheStep]
              have hids : identIds (inp :: rest) = identIds rest := by
                simp [identIds, hd]
              rw [hids]
              exact ih c hlen

/-- Starting from the empty cache (`address_init`), the cached ids are the
first `cap` distinct Identification ids in first-occurrence order. -/
theorem applyInputs_nil_firstOccur (cap : Nat) (inps : List IterInput) :
    (applyInputs cap [] inps).map (fun r => r.device_id) =
      (firstOccur (identIds inps)).take cap := by
  have h := applyInputs_firstOccur cap inps [] (by simp)
  simpa [firstOccur] using h

/-- Capacity is never exceeded: the cache length stays at most `cap`. -/
theorem applyInputs_length_le (cap : Nat) (inps : List IterInput)
    (c : List DeviceRecord) (hlen : c.length ≤ cap) :
    (applyInputs cap c inps).length ≤ cap := by
  have h := applyInputs_firstOccur cap inps c hlen
  have hmaplen : (applyInputs cap c inps).length =
      ((applyInputs cap c inps).map (fun r => r.device_id)).length := by simp
  rw [hmaplen, h]
  simp [List.length_take]
  omega

/-! ### Properties of the first-occurrence subsequence -/

theorem firstOccurAux_nodup_and_fresh :
    ∀ (l seen : List Nat),
      (firstOccurAux seen l).Nodup ∧ ∀ a ∈ firstOccurAux seen l, a ∉ seen := by
  intro l
  induction l with
  | nil => intro seen; simp [firstOccurAux]
  | cons b l2 ih =>
      intro seen
      by_cases hb : b ∈ seen
      · simpa [firstOccurAux, hb] using ih seen
      · obtain ⟨hnd, hfresh⟩ := ih (seen ++ [b])
        simp only [firstOccurAux, if_neg hb]
        constructor
        · refine List.nodup_cons.mpr ⟨?_, hnd⟩
          intro hcon
          have := hfresh b hcon
          simp at this
        · intro a ha
          rcases List.mem_cons.mp ha with h | h
          · subst h; exact hb
          · intro hcon
            exact hfresh a h (by simp [hcon])

theorem firstOccur_nodup (l : List Nat) : (firstOccur l).Nodup :=
  (firstOccurAux_nodup_and_fresh l []).1

theorem firstOccurAux_sublist :
    ∀ (l seen : List Nat), (firstOccurAux seen l).Sublist l := by
  intro l
  induction l with
  | nil => intro seen; simp [firstOccurAux]
  | cons b l2 ih =>
      intro seen
      by_cases hb : b ∈ seen
      · simp only [firstOccurAux, if_pos hb]
        exact (ih seen).cons b
      · simp only [firstOccurAux, if_neg hb]
        exact (ih (seen ++ [b])).cons₂ b

theorem firstOccur_sublist (l : List Nat) : (firstOccur l).Sublist l :=
  firstOccurAux_sublist l []

theorem firstOccurAux_mem :
    ∀ (l seen : List Nat) (a : Nat),
      a ∈ firstOccurAux seen l ↔ a ∈ l ∧ a ∉ seen := by
  intro l
  induction l with
  | nil => intro seen a; simp [firstOccurAux]
  | cons b l2 ih =>
      intro seen a
      by_cases hb : b ∈ seen
      · simp only [firstOccurAux, if_pos hb]
        rw [ih seen a]
        constructor
        · rintro ⟨h1, h2⟩; exact ⟨List.mem_cons_of_mem b h1, h2⟩
        · rintro ⟨h1, h2⟩
          rcases List.mem_cons.mp h1 with h | h
          · subst h; exact absurd hb h2
          · exact ⟨h, h2⟩
      · simp only [firstOccurAux, if_neg hb]
        rw [List.mem_cons, ih (seen ++ [b]) a]
        constructor
        · rintro (h | ⟨h1, h2⟩)
          · subst h; exact ⟨List.mem_cons_self a l2, hb⟩
          · refine ⟨List.mem_cons_of_mem b h1, ?_⟩
            intro hcon
            exact h2 (by simp [hcon])
        · rintro ⟨h1, h2⟩
          rcases List.mem_cons.mp h1 with h | h
          · exact Or.inl h
          · by_cases hab : a = b
            · exact Or.inl hab
            · refine Or.inr ⟨h, ?_⟩
              simp [h2, hab]

theorem firstOccur_mem (l : List Nat) (a : Nat) :
    a ∈ firstOccur l ↔ a ∈ l := by
  rw [firstOccur, firstOccurAux_mem]
  simp

/-! ### Session-level wrappers for fatal-free runs -/

theorem firstIdx?_congr (p q : IterInput → Bool) (h : ∀ a, p a = q a) :
    ∀ l : List IterInput, firstIdx? p l = firstIdx? q l := by
  intro l
  induction l with
  | nil => rfl
  | cons a l2 ih => simp [firstIdx?, h a, ih]

theorem runSession_noFatal_some (cap : Nat) (t start : Int)
    (inputs : List IterInput) (J : Nat)
    (hnf : ∀ inp ∈ inputs, fatalInput inp = false)
    (hJ : firstIdx? (fun inp => decide (inp.clock - start > t)) inputs = some J) :
    runSession cap t start inputs =
      ⟨.TimedOut, applyInputs cap [] (inputs.take (J + 1)), false,
        clockAt inputs J - start, J + 1⟩ := by
  have hpred : ∀ a : IterInput,
      (fun inp => decide (inp.clock - start > t)) a =
        (fun inp => decide ((0 - start) + inp.clock > t)) a := by
    intro a
    simp only [decide_eq_decide]
    omega
  rw [firstIdx?_congr _ _ hpred inputs] at hJ
  have h := loopAux_noFatal_some cap t (0 - start) inputs [] 0 start 0 J hnf
    (by ring) hJ
  rw [runSession, h]
  have h1 : (0 : Int) - start + clockAt inputs J = clockAt inputs J - start := by ring
  have h2 : 0 + J + 1 = J + 1 := by omega
  rw [h1, h2]

theorem runSession_noFatal_none (cap : Nat) (t start : Int)
    (inputs : List IterInput)
    (hnf : ∀ inp ∈ inputs, fatalInput inp = false)
    (hJ : firstIdx? (fun inp => decide (inp.clock - start > t)) inputs = none) :
    (runSession cap t start inputs).state = .Running ∧
    (runSession cap t start inputs).cache = applyInputs cap [] inputs ∧
    (runSession cap t start inputs).err = false ∧
    (runSession cap t start inputs).itersRun = inputs.length := by
  have hpred : ∀ a : IterInput,
      (fun inp => decide (inp.clock - start > t)) a =
        (fun inp => decide ((0 - start) + inp.clock > t)) a := by
    intro a
    simp only [decide_eq_decide]
    omega
  rw [firstIdx?_congr _ _ hpred inputs] at hJ
  have h := loopAux_noFatal_none cap t (0 - start) inputs [] 0 start 0 hnf
    (by ring) hJ
  simpa [runSession] using h

/-- For fatal-free runs, the final cache is the fold of exactly the
consumed iteration inputs. -/
theorem runSession_noFatal_cache (cap : Nat) (t start : Int)
    (inputs : List IterInput)
    (hnf : ∀ inp ∈ inputs, fatalInput inp = false) :
    (runSession cap t start inputs).cache =
      applyInputs cap []
        (inputs.take (runSession cap t start inputs).itersRun) := by
  cases hJ : firstIdx? (fun inp => decide (inp.clock - start > t)) inputs with
  | some J =>
      rw [runSession_noFatal_some cap t start inputs J hnf hJ]
  | none =>
      obtain ⟨_, h2, _, h4⟩ := runSession_noFatal_none cap t start inputs hnf hJ
      rw [h2, h4, List.take_length]

/-! ### The fatal-error path -/

/-- If the first fatal (Abort or Reject) event is delivered at iteration
`J` (0-based), the loop performs at most `J + 1` iterations — hence at
most `J + 1` receives, none after the fatal event — and it ends `Aborted`
precisely when it actually reaches that iteration (an earlier exit can
only be the timeout). -/
theorem loopAux_fatal (cap : Nat) (t : Int) :
    ∀ (inputs : List IterInput) (cache : List DeviceRecord)
      (total last : Int) (iters J : Nat),
      firstIdx? fatalInput inputs = some J →
      (loopAux cap t inputs cache false total last iters).itersRun ≤ iters + J + 1 ∧
      ((loopAux cap t inputs cache false total last iters).state = .Aborted ↔
        (loopAux cap t inputs cache false total last iters).itersRun =
          iters + J + 1) := by
  intro inputs
  induction inputs with
  | nil => intro cache total last iters J hJ; simp [firstIdx?] at hJ
  | cons inp rest ih =>
      intro cache total last iters J hJ
      by_cases hf : fatalInput inp = true
      · simp [firstIdx?, hf] at hJ
        subst hJ
        rw [loopAux_abort cap t inp rest cache false total last iters
          (inputErrStep_true_of_fatal false inp hf)]
        simp
      · have hf2 : fatalInput inp = false := by
          rw [← Bool.not_eq_true]; exact hf
        simp [firstIdx?, hf2] at hJ
        obtain ⟨J0, hJ0, hJeq⟩ := hJ
        subst hJeq
        have hne : inputErrStep false inp = false :=
          inputErrStep_false_of_not_fatal inp hf2
        by_cases hto : total + (inp.clock - last) > t
        · rw [loopAux_timeout cap t inp rest cache total last iters hne hto]
          refine ⟨?_, ?_, ?_⟩
          · show iters + 1 ≤ iters + (J0 + 1) + 1
            omega
          · intro h
            simp at h
          · intro h
            have : iters + 1 = iters + (J0 + 1) + 1 := h
            exact absurd this (by omega)
        · rw [loopAux_cont cap t inp rest cache total last iters hne hto]
          obtain ⟨ha, hb⟩ := ih (inputCacheStep cap cache inp) (total + (inp.clock - last))
            inp.clock (iters + 1) J0 hJ0
          have heq : iters + 1 + J0 + 1 = iters + (J0 + 1) + 1 := by omega
          rw [heq] at ha hb
          exact ⟨ha, hb⟩

theorem runSession_fatal (cap : Nat) (t start : Int) (inputs : List IterInput)
    (J : Nat) (hJ : firstIdx? fatalInput inputs = some J) :
    (runSession cap t start inputs).itersRun ≤ J + 1 ∧
    ((runSession cap t start inputs).state = .Aborted ↔
      (runSession cap t start inputs).itersRun = J + 1) := by
  have h := loopAux_fatal cap t inputs [] 0 start 0 J hJ
  simpa [runSession] using h

/-! ## Claim theorems -/

/-- Claim C7: every session run emits exactly one discovery broadcast,
covering the inclusive range `[Target_Object_Instance_Min,
Target_Object_Instance_Max]`, before the polling loop is entered
(`Send_WhoIs` at line 277 is the only send and precedes the `for (;;)`),
and no broadcast is ever emitted again during the session, regardless of
how many iterations run or what arrives. -/
theorem whois_broadcast_exactly_once (cap : Nat) (t start : Int)
    (inputs : List IterInput) :
    (mainActions cap t start inputs).filter isBroadcast =
      [Action.broadcast Target_Object_Instance_Min Target_Object_Instance_Max] ∧
    (mainActions cap t start inputs).head? =
      some (Action.broadcast Target_Object_Instance_Min Target_Object_Instance_Max) := by
  constructor
  · unfold mainActions
    rw [List.filter_cons]
    have hb : isBroadcast
        (Action.broadcast Target_Object_Instance_Min Target_Object_Instance_Max) =
        true := rfl
    rw [if_pos hb, List.filter_append]
    have h1 : (List.replicate (runSession cap t start inputs).itersRun
        Action.receiveAttempt).filter isBroadcast = [] := by
      rw [List.filter_eq_nil_iff]
      intro a ha
      rw [List.eq_of_mem_replicate ha]
      simp [isBroadcast]
    have h2 : ((sessionOutput cap t start inputs).map Action.reportLine).filter
        isBroadcast = [] := by
      rw [List.filter_eq_nil_iff]
      intro a ha
      obtain ⟨id, _, rfl⟩ := List.mem_map.mp ha
      simp [isBroadcast]
    rw [h1, h2]
    rfl
  · rfl

/-- Claim C8: the process exit status is 0 for every session that runs to
completion — whatever the terminal state, including `Aborted` — and the
only non-zero exit (status 1) happens when datalink initialisation fails,
in which case no session runs at all. -/
theorem exit_status_convention (cap : Nat) (t start : Int)
    (inputs : List IterInput) :
    (programRun true cap t start inputs).2 = 0 ∧
    (programRun true cap t start inputs).1 = some (runSession cap t start inputs) ∧
    (programRun false cap t start inputs).2 = 1 ∧
    (programRun false cap t start inputs).1 = none := by
  simp [programRun]

/-- Claim C9: in the final reporting pass the compaction counter `k`
advances by at most one per scanned index over exactly
`MAX_ADDRESS_CACHE` indices, so every write `device_id_array[k]` (and
`net_array[k]`, `mac_array[k]`, which use the same index) stays within
bounds — the out-of-bounds flag is never raised — and the number of
device-id lines printed to stdout is at most `MAX_ADDRESS_CACHE`.  This
holds for every possible cache-lookup function. -/
theorem report_pass_in_bounds (cap : Nat) (get : Nat → Option DeviceRecord) :
    (reportRun cap get).oob = false ∧
    (reportRun cap get).k ≤ cap ∧
    (printedOf cap get).length ≤ cap := by
  obtain ⟨h1, h2⟩ := reportAux_bounds cap get cap 0 ⟨[], [], [], 0, false⟩ rfl
    (by simp)
  have hk : (reportRun cap get).k ≤ cap := by
    simpa [reportRun] using h2
  refine ⟨h1, hk, ?_⟩
  unfold printedOf
  have := List.length_take_le (reportRun cap get).k (reportRun cap get).ids
  omega

/-- Claim C10: the session's wall-clock budget in seconds is
`apdu_timeout() / 1000` by integer division (line 275); for any
configured APDU timeout below 1000 ms the budget is 0 seconds, and the
loop then exits with `TimedOut` at the first iteration whose clock sample
exceeds the start sample — i.e. as soon as one whole second of
accumulated elapsed time has passed. -/
theorem apdu_timeout_integer_division (ms cap : Nat) (start : Int)
    (inputs : List IterInput) (J : Nat)
    (hms : ms < 1000)
    (hnf : ∀ inp ∈ inputs, fatalInput inp = false)
    (hJ : firstIdx? (fun inp => decide (inp.clock - start > 0)) inputs = some J) :
    timeout_seconds_of ms = 0 ∧
    runSession cap ((timeout_seconds_of ms : Nat) : Int) start inputs =
      ⟨.TimedOut, applyInputs cap [] (inputs.take (J + 1)), false,
        clockAt inputs J - start, J + 1⟩ ∧
    1 ≤ clockAt inputs J - start := by
  have h0 : timeout_seconds_of ms = 0 := Nat.div_eq_of_lt hms
  refine ⟨h0, ?_, ?_⟩
  · rw [h0]
    have hcast : (((0 : Nat) : Int)) = (0 : Int) := rfl
    rw [hcast]
    exact runSession_noFatal_some cap 0 start inputs J hnf hJ
  · have hpred : ∀ a : IterInput,
        (fun inp => decide (inp.clock - start > (0 : Int))) a =
          (fun inp => decide ((0 - start) + inp.clock > (0 : Int))) a := by
      intro a
      simp only [decide_eq_decide]
      omega
    rw [firstIdx?_congr _ _ hpred inputs] at hJ
    have := firstIdx?_clock_prop 0 (0 - start) inputs J hJ
    omega

/-- Witness for C10 at APDU timeout 250 ms on a two-iteration idle trace
whose clock advances by one second at the second iteration. -/
theorem apdu_timeout_integer_division_witness :
    timeout_seconds_of 250 = 0 ∧
    runSession 4 ((timeout_seconds_of 250 : Nat) : Int) 7 [⟨7, none⟩, ⟨8, none⟩] =
      ⟨.TimedOut, applyInputs 4 [] ([⟨7, none⟩, ⟨8, none⟩].take 2), false,
        clockAt [⟨7, none⟩, ⟨8, none⟩] 1 - 7, 2⟩ ∧
    1 ≤ clockAt [⟨7, none⟩, ⟨8, none⟩] 1 - 7 :=
  apdu_timeout_integer_division 250 4 7 [⟨7, none⟩, ⟨8, none⟩] 1
    (by decide) (by decide) (by decide)

theorem identIds_eq_nil_of_no_ident (l : List IterInput)
    (h : ∀ inp ∈ l, inp.datagram = none ∨
      inp.datagram = some Event.unrecognizedService) :
    identIds l = [] := by
  induction l with
  | nil => rfl
  | cons inp rest ih =>
      have hrest : identIds rest = [] :=
        ih (fun x hx => h x (List.mem_cons_of_mem inp hx))
      rcases h inp (List.mem_cons_self inp rest) with hd | hd <;>
        simp [identIds, hd, hrest]

theorem cache_empty_of_no_ident (cap : Nat) (t start : Int)
    (inputs : List IterInput)
    (h : ∀ inp ∈ inputs, inp.datagram = none ∨
      inp.datagram = some Event.unrecognizedService) :
    (runSession cap t start inputs).cache = [] := by
  have hnf : ∀ inp ∈ inputs, fatalInput inp = false := by
    intro inp hmem
    rcases h inp hmem with hd | hd <;> simp [fatalInput, hd]
  rw [runSession_noFatal_cache cap t start inputs hnf]
  have hsub : ∀ inp ∈ inputs.take (runSession cap t start inputs).itersRun,
      inp.datagram = none ∨ inp.datagram = some Event.unrecognizedService := by
    intro inp hmem
    exact h inp (List.take_subset _ _ hmem)
  have hids : identIds (inputs.take (runSession cap t start inputs).itersRun) = [] :=
    identIds_eq_nil_of_no_ident _ hsub
  have hmap := applyInputs_nil_firstOccur cap
    (inputs.take (runSession cap t start inputs).itersRun)
  rw [hids] at hmap
  simp only [firstOccur, firstOccurAux, List.take_nil] at hmap
  exact List.map_eq_nil_iff.mp hmap

/-- Claim C3: once an Abort or Reject event has been processed the fatal
flag is true and no step ever clears it (`errStep true e = true` for every
event); the loop checks the flag on every iteration regardless of whether
a datagram arrived, and with the flag set it exits at that very iteration
— so when the first fatal event is delivered at iteration `J` the loop
performs at most `J + 1` receives, ending `Aborted` exactly when it
reaches iteration `J`, and no event is processed after the fatal one. -/
theorem fatal_flag_monotone_and_halts (cap : Nat) (t start : Int)
    (inputs : List IterInput) (J : Nat)
    (hJ : firstIdx? fatalInput inputs = some J) :
    (∀ e : Event, errStep true e = true) ∧
    (∀ (inp : IterInput) (rest : List IterInput) (cache : List DeviceRecord)
        (total last : Int) (iters : Nat),
      loopAux cap t (inp :: rest) cache true total last iters =
        ⟨.Aborted, inputCacheStep cap cache inp, true, total, iters + 1⟩) ∧
    (runSession cap t start inputs).itersRun ≤ J + 1 ∧
    ((runSession cap t start inputs).state = .Aborted ↔
      (runSession cap t start inputs).itersRun = J + 1) := by
  refine ⟨errStep_of_true, ?_, ?_, ?_⟩
  · intro inp rest cache total last iters
    exact loopAux_abort cap t inp rest cache true total last iters
      (inputErrStep_of_true inp)
  · exact (runSession_fatal cap t start inputs J hJ).1
  · exact (runSession_fatal cap t start inputs J hJ).2

/-- Witness for C3: an Identification, then a Reject at iteration index 1,
then another Identification that is never received. -/
theorem fatal_flag_monotone_and_halts_witness :
    (∀ e : Event, errStep true e = true) ∧
    (∀ (inp : IterInput) (rest : List IterInput) (cache : List DeviceRecord)
        (total last : Int) (iters : Nat),
      loopAux 4 10 (inp :: rest) cache true total last iters =
        ⟨.Aborted, inputCacheStep 4 cache inp, true, total, iters + 1⟩) ∧
    (runSession 4 10 0
      [⟨0, some (.identification 5 0 [] 0)⟩, ⟨0, some (.reject 2)⟩,
        ⟨0, some (.identification 6 0 [] 0)⟩]).itersRun ≤ 2 ∧
    ((runSession 4 10 0
      [⟨0, some (.identification 5 0 [] 0)⟩, ⟨0, some (.reject 2)⟩,
        ⟨0, some (.identification 6 0 [] 0)⟩]).state = .Aborted ↔
      (runSession 4 10 0
        [⟨0, some (.identification 5 0 [] 0)⟩, ⟨0, some (.reject 2)⟩,
          ⟨0, some (.identification 6 0 [] 0)⟩]).itersRun = 2) :=
  fatal_flag_monotone_and_halts 4 10 0
    [⟨0, some (.identification 5 0 [] 0)⟩, ⟨0, some (.reject 2)⟩,
      ⟨0, some (.identification 6 0 [] 0)⟩] 1 (by decide)

/-- Claim C4: a session whose inbound datagrams decode only to
UnrecognizedService events (plus idle polls) never sets the fatal flag,
never ends `Aborted`, and if it terminates at all it terminates `TimedOut`
with an empty reported result. -/
theorem unrecognized_service_tolerance (cap : Nat) (t start : Int)
    (inputs : List IterInput)
    (hu : ∀ inp ∈ inputs, inp.datagram = none ∨
      inp.datagram = some Event.unrecognizedService) :
    (runSession cap t start inputs).err = false ∧
    (runSession cap t start inputs).state ≠ .Aborted ∧
    ((runSession cap t start inputs).state ≠ .Running →
      (runSession cap t start inputs).state = .TimedOut) ∧
    sessionOutput cap t start inputs = [] := by
  have hnf : ∀ inp ∈ inputs, fatalInput inp = false := by
    intro inp hmem
    rcases hu inp hmem with hd | hd <;> simp [fatalInput, hd]
  have hout : sessionOutput cap t start inputs = [] := by
    unfold sessionOutput
    rw [cache_empty_of_no_ident cap t start inputs hu]
    rw [printedLines_eq_map cap [] (by simp)]
    rfl
  cases hJ : firstIdx? (fun inp => decide (inp.clock - start > t)) inputs with
  | some J =>
      rw [runSession_noFatal_some cap t start inputs J hnf hJ]
      refine ⟨rfl, by simp, fun _ => rfl, hout⟩
  | none =>
      obtain ⟨h1, _, h3, _⟩ := runSession_noFatal_none cap t start inputs hnf hJ
      rw [h1, h3]
      exact ⟨rfl, by simp, fun hcon => absurd rfl hcon, hout⟩

/-- Witness for C4: one UnrecognizedService datagram, then an idle poll at
which the clock has advanced past the zero-second budget. -/
theorem unrecognized_service_tolerance_witness :
    (runSession 4 0 5 [⟨5, some Event.unrecognizedService⟩, ⟨6, none⟩]).err = false ∧
    (runSession 4 0 5 [⟨5, some Event.unrecognizedService⟩, ⟨6, none⟩]).state ≠
      .Aborted ∧
    ((runSession 4 0 5 [⟨5, some Event.unrecognizedService⟩, ⟨6, none⟩]).state ≠
        .Running →
      (runSession 4 0 5 [⟨5, some Event.unrecognizedService⟩, ⟨6, none⟩]).state =
        .TimedOut) ∧
    sessionOutput 4 0 5 [⟨5, some Event.unrecognizedService⟩, ⟨6, none⟩] = [] :=
  unrecognized_service_tolerance 4 0 5
    [⟨5, some Event.unrecognizedService⟩, ⟨6, none⟩] (by decide)

/-- Counterexample for C5 as stated: with `session_timeout_seconds = 0`
and no inbound datagrams the loop still runs five receive iterations
(five idle-timeout poll intervals, one per 1 ms poll) when the clock
stays within the same second for the first four samples — far more than
"one or two" — although it does end `TimedOut` with an empty result. -/
theorem timeout_zero_poll_counterexample :
    runSession 8 0 5 [⟨5, none⟩, ⟨5, none⟩, ⟨5, none⟩, ⟨5, none⟩, ⟨6, none⟩] =
      ⟨.TimedOut, [], false, 1, 5⟩ ∧
    sessionOutput 8 0 5 [⟨5, none⟩, ⟨5, none⟩, ⟨5, none⟩, ⟨5, none⟩, ⟨6, none⟩] = [] ∧
    ¬ (runSession 8 0 5
        [⟨5, none⟩, ⟨5, none⟩, ⟨5, none⟩, ⟨5, none⟩, ⟨6, none⟩]).itersRun ≤ 2 := by
  decide

/-- Claim C5 (amended): with `session_timeout_seconds = 0` and no inbound
datagrams, the session terminates at the first poll iteration whose
whole-second clock sample strictly exceeds the session-start sample —
within at most one second of wall clock, but possibly after many
idle-timeout poll intervals — ending `TimedOut` with an empty result
after exactly `J + 1` poll iterations, where `J` is the index of that
first advanced clock sample. -/
theorem timeout_zero_terminates (cap : Nat) (start : Int)
    (inputs : List IterInput) (J : Nat)
    (hnd : ∀ inp ∈ inputs, inp.datagram = none)
    (hJ : firstIdx? (fun inp => decide (inp.clock - start > 0)) inputs = some J) :
    (runSession cap 0 start inputs).state = .TimedOut ∧
    (runSession cap 0 start inputs).itersRun = J + 1 ∧
    sessionOutput cap 0 start inputs = [] := by
  have hnf : ∀ inp ∈ inputs, fatalInput inp = false := by
    intro inp hmem
    simp [fatalInput, hnd inp hmem]
  have hout : sessionOutput cap 0 start inputs = [] := by
    unfold sessionOutput
    rw [cache_empty_of_no_ident cap 0 start inputs
      (fun inp hmem => Or.inl (hnd inp hmem))]
    rw [printedLines_eq_map cap [] (by simp)]
    rfl
  rw [runSession_noFatal_some cap 0 start inputs J hnf hJ]
  exact ⟨rfl, rfl, hout⟩

/-- Witness for C5 (amended): the clock advances at the second sample. -/
theorem timeout_zero_terminates_witness :
    (runSession 3 0 5 [⟨5, none⟩, ⟨6, none⟩]).state = .TimedOut ∧
    (runSession 3 0 5 [⟨5, none⟩, ⟨6, none⟩]).itersRun = 2 ∧
    sessionOutput 3 0 5 [⟨5, none⟩, ⟨6, none⟩] = [] :=
  timeout_zero_terminates 3 5 [⟨5, none⟩, ⟨6, none⟩] 1 (by decide) (by decide)

/-- Claim C6: on each iteration the elapsed time is the whole-second
difference between that iteration's clock sample and the previous
iteration's, accumulated into `total_seconds` (telescoping to
`clock - start`), and the session becomes `TimedOut` exactly when the
accumulated total strictly exceeds `timeout_seconds`: it exits at the
first iteration `J` whose sample satisfies `clock J - start > t` with
final total `clock J - start`, and keeps running if no sample does.
Consequently, for real-valued instants whose floor the clock samples are,
the realized timeout strictly exceeds `t` — the first sub-second slice
before the first whole-second boundary is never counted. -/
theorem elapsed_accumulation_exact (cap : Nat) (t start : Int)
    (inputs : List IterInput)
    (hnf : ∀ inp ∈ inputs, fatalInput inp = false) :
    (∀ J : Nat,
      firstIdx? (fun inp => decide (inp.clock - start > t)) inputs = some J →
      runSession cap t start inputs =
        ⟨.TimedOut, applyInputs cap [] (inputs.take (J + 1)), false,
          clockAt inputs J - start, J + 1⟩ ∧
      clockAt inputs J - start > t ∧
      (∀ rstart rJ : ℚ, start = ⌊rstart⌋ → clockAt inputs J = ⌊rJ⌋ →
        (t : ℚ) < rJ - rstart)) ∧
    (firstIdx? (fun inp => decide (inp.clock - start > t)) inputs = none →
      (runSession cap t start inputs).state = .Running) := by
  constructor
  · intro J hJ
    have hrun := runSession_noFatal_some cap t start inputs J hnf hJ
    have hpred : ∀ a : IterInput,
        (fun inp => decide (inp.clock - start > t)) a =
          (fun inp => decide ((0 - start) + inp.clock > t)) a := by
      intro a
      simp only [decide_eq_decide]
      omega
    have hJ2 := hJ
    rw [firstIdx?_congr _ _ hpred inputs] at hJ2
    have hgt : clockAt inputs J - start > t := by
      have := firstIdx?_clock_prop t (0 - start) inputs J hJ2
      omega
    refine ⟨hrun, hgt, ?_⟩
    intro rstart rJ hs hc
    have hint : clockAt inputs J ≥ start + t + 1 := by omega
    have hfs : (rstart : ℚ) < (start : ℚ) + 1 := by
      rw [hs]
      exact_mod_cast Int.lt_floor_add_one rstart
    have hfc : ((clockAt inputs J : ℤ) : ℚ) ≤ rJ := by
      rw [hc]
      exact_mod_cast Int.floor_le rJ
    have hcast : ((clockAt inputs J : ℤ) : ℚ) ≥ (start : ℚ) + (t : ℚ) + 1 := by
      exact_mod_cast hint
    linarith
  · intro hJ
    exact (runSession_noFatal_none cap t start inputs hnf hJ).1

/-- Witness for C6: an idle trace whose third sample crosses the budget
`t = 1`, with underlying real instants 5.7 and 7.2. -/
theorem elapsed_accumulation_exact_witness :
    runSession 4 1 5 [⟨5, none⟩, ⟨5, none⟩, ⟨7, none⟩] =
      ⟨.TimedOut, applyInputs 4 [] ([⟨5, none⟩, ⟨5, none⟩, ⟨7, none⟩].take 3),
        false, clockAt [⟨5, none⟩, ⟨5, none⟩, ⟨7, none⟩] 2 - 5, 3⟩ ∧
    clockAt [⟨5, none⟩, ⟨5, none⟩, ⟨7, none⟩] 2 - 5 > 1 ∧
    ((1 : ℚ) < (72 / 10 : ℚ) - (57 / 10 : ℚ)) := by
  have h := (elapsed_accumulation_exact 4 1 5
    [⟨5, none⟩, ⟨5, none⟩, ⟨7, none⟩] (by decide)).1 2 (by decide)
  refine ⟨h.1, h.2.1, ?_⟩
  have h1 : (5 : ℤ) = ⌊(57 / 10 : ℚ)⌋ := by
    symm
    rw [Int.floor_eq_iff]
    constructor <;> norm_num
  have h2 : clockAt [⟨5, none⟩, ⟨5, none⟩, ⟨7, none⟩] 2 = ⌊(72 / 10 : ℚ)⌋ := by
    have hc : clockAt [⟨5, none⟩, ⟨5, none⟩, ⟨7, none⟩] 2 = 7 := by decide
    rw [hc]
    symm
    rw [Int.floor_eq_iff]
    constructor <;> norm_num
  exact_mod_cast h.2.2 (57 / 10) (72 / 10) h1 h2

/-- Two distinct device identifications followed by an idle poll on which
the clock has advanced, against a cache of capacity 1. -/
def capOneTrace : List IterInput :=
  [⟨0, some (.identification 10 0 [] 0)⟩, ⟨0, some (.identification 20 0 [] 0)⟩,
    ⟨1, none⟩]

/-- Counterexample to C1 as stated: with a cache capacity of 1 (the cache
is capacity-bounded, spec 4.1: a full cache silently drops further new
devices), a session that processes two Identification events with
distinct device ids 10 and 20 ends with cache size 1, not 2, and the
final report is `[10]`, missing the distinct id 20. -/
theorem insert_once_counterexample :
    identIds (capOneTrace.take (runSession 1 0 0 capOneTrace).itersRun) =
      [10, 20] ∧
    (firstOccur [10, 20]).length = 2 ∧
    (runSession 1 0 0 capOneTrace).cache.length = 1 ∧
    sessionOutput 1 0 0 capOneTrace = [10] ∧
    ¬ (runSession 1 0 0 capOneTrace).cache.length =
        (firstOccur [10, 20]).length := by
  decide

/-- Claim C1 (amended): for every fatal-free session, the final cache
holds the first `MAX_ADDRESS_CACHE` distinct device ids of the processed
Identification events, in first-occurrence order, and the final report
enumerates exactly these; the cache size is the number of distinct ids
capped at the capacity.  In particular, whenever the number of distinct
device ids does not exceed the capacity, the claim holds as stated: the
size equals the number of distinct ids and the report lists each distinct
id exactly once (no duplicates), as a subsequence of the processed order,
i.e. in the order of each id's first Identification event. -/
theorem insert_once_amended (cap : Nat) (t start : Int) (inputs : List IterInput)
    (hnf : ∀ inp ∈ inputs, fatalInput inp = false) :
    (runSession cap t start inputs).cache.map (fun r => r.device_id) =
      (firstOccur (identIds
        (inputs.take (runSession cap t start inputs).itersRun))).take cap ∧
    sessionOutput cap t start inputs =
      (firstOccur (identIds
        (inputs.take (runSession cap t start inputs).itersRun))).take cap ∧
    (runSession cap t start inputs).cache.length =
      min cap (firstOccur (identIds
        (inputs.take (runSession cap t start inputs).itersRun))).length ∧
    ((firstOccur (identIds
        (inputs.take (runSession cap t start inputs).itersRun))).length ≤ cap →
      sessionOutput cap t start inputs =
        firstOccur (identIds
          (inputs.take (runSession cap t start inputs).itersRun)) ∧
      (sessionOutput cap t start inputs).Nodup ∧
      (sessionOutput cap t start inputs).Sublist
        (identIds (inputs.take (runSession cap t start inputs).itersRun)) ∧
      (∀ a, a ∈ sessionOutput cap t start inputs ↔
        a ∈ identIds (inputs.take (runSession cap t start inputs).itersRun)) ∧
      (runSession cap t start inputs).cache.length =
        (firstOccur (identIds
          (inputs.take (runSession cap t start inputs).itersRun))).length) := by
  have hcache := runSession_noFatal_cache cap t start inputs hnf
  have hmap : (runSession cap t start inputs).cache.map (fun r => r.device_id) =
      (firstOccur (identIds
        (inputs.take (runSession cap t start inputs).itersRun))).take cap := by
    rw [hcache]
    exact applyInputs_nil_firstOccur cap _
  have hlen : (runSession cap t start inputs).cache.length ≤ cap := by
    rw [hcache]
    exact applyInputs_length_le cap _ [] (by simp)
  have hout : sessionOutput cap t start inputs =
      (firstOccur (identIds
        (inputs.take (runSession cap t start inputs).itersRun))).take cap := by
    have h1 : sessionOutput cap t start inputs =
        printedLines cap (runSession cap t start inputs).cache := rfl
    rw [h1, printedLines_eq_map cap _ hlen, hmap]
  have hlencache : (runSession cap t start inputs).cache.length =
      min cap (firstOccur (identIds
        (inputs.take (runSession cap t start inputs).itersRun))).length := by
    have h2 : (runSession cap t start inputs).cache.length =
        ((runSession cap t start inputs).cache.map
          (fun r => r.device_id)).length := by simp
    rw [h2, hmap, List.length_take]
  refine ⟨hmap, hout, hlencache, ?_⟩
  intro hle
  have htk : (firstOccur (identIds
      (inputs.take (runSession cap t start inputs).itersRun))).take cap =
      firstOccur (identIds
        (inputs.take (runSession cap t start inputs).itersRun)) :=
    List.take_of_length_le hle
  refine ⟨by rw [hout, htk], ?_, ?_, ?_, ?_⟩
  · rw [hout, htk]
    exact firstOccur_nodup _
  · rw [hout, htk]
    exact firstOccur_sublist _
  · intro a
    rw [hout, htk]
    exact firstOccur_mem _ a
  · rw [hlencache]
    exact Nat.min_eq_right hle

/-- Identification events for devices 10, 20, again 10, then 30, then an
idle poll with the clock advanced, against a cache of capacity 3. -/
def dedupTrace : List IterInput :=
  [⟨0, some (.identification 10 0 [] 0)⟩, ⟨0, some (.identification 20 0 [] 0)⟩,
    ⟨0, some (.identification 10 0 [] 0)⟩, ⟨0, some (.identification 30 0 [] 0)⟩,
    ⟨1, none⟩]

/-- Witness for C1 (amended) on a trace with a duplicated device id. -/
theorem insert_once_amended_witness :
    (∀ inp ∈ dedupTrace, fatalInput inp = false) ∧
    sessionOutput 3 0 0 dedupTrace =
      (firstOccur (identIds
        (dedupTrace.take (runSession 3 0 0 dedupTrace).itersRun))).take 3 ∧
    (sessionOutput 3 0 0 dedupTrace).Nodup :=
  ⟨by decide, (insert_once_amended 3 0 0 dedupTrace (by decide)).2.1,
    ((insert_once_amended 3 0 0 dedupTrace (by decide)).2.2.2 (by decide)).2.1⟩

/-- Claim C2: a session that processes Identification for device 10, then
Identification for device 20, then an Abort event, terminates in state
`Aborted` and still reports `[10, 20]` in that order; in general the
fatal handlers never modify the cache, and the final report is always the
report of the final cache — the fatal-error exit path does not discard or
suppress any device recorded before the fatal event. -/
theorem abort_preserves_partial_results (cap : Nat) (t start : Int)
    (hcap : 2 ≤ cap) (ht : 0 ≤ t) :
    (runSession cap t start
      [⟨start, some (.identification 10 0 [] 0)⟩,
        ⟨start, some (.identification 20 0 [] 0)⟩,
        ⟨start, some (.abort 0)⟩]).state = .Aborted ∧
    sessionOutput cap t start
      [⟨start, some (.identification 10 0 [] 0)⟩,
        ⟨start, some (.identification 20 0 [] 0)⟩,
        ⟨start, some (.abort 0)⟩] = [10, 20] ∧
    (∀ (cache : List DeviceRecord) (reason : Nat),
      cacheStep cap cache (.abort reason) = cache ∧
      cacheStep cap cache (.reject reason) = cache) ∧
    (∀ inputs : List IterInput, sessionOutput cap t start inputs =
      printedLines cap (runSession cap t start inputs).cache) := by
  have h0 : 0 < cap := by omega
  have h1 : 1 < cap := by omega
  have hnt : ¬ (0 : Int) > t := by omega
  have hrun : runSession cap t start
      [⟨start, some (.identification 10 0 [] 0)⟩,
        ⟨start, some (.identification 20 0 [] 0)⟩,
        ⟨start, some (.abort 0)⟩] =
      ⟨.Aborted, [⟨10, 0, [], 0⟩, ⟨20, 0, [], 0⟩], true, 0, 3⟩ := by
    simp [runSession, loopAux, inputErrStep, inputCacheStep, cacheStep, errStep,
      insert_if_absent, sub_self, hnt, h0, h1]
  refine ⟨by rw [hrun], ?_, ?_, fun _ => rfl⟩
  · have hso : sessionOutput cap t start
        [⟨start, some (.identification 10 0 [] 0)⟩,
          ⟨start, some (.identification 20 0 [] 0)⟩,
          ⟨start, some (.abort 0)⟩] =
        printedLines cap (runSession cap t start
          [⟨start, some (.identification 10 0 [] 0)⟩,
            ⟨start, some (.identification 20 0 [] 0)⟩,
            ⟨start, some (.abort 0)⟩]).cache := rfl
    rw [hso, hrun]
    rw [printedLines_eq_map cap [⟨10, 0, [], 0⟩, ⟨20, 0, [], 0⟩] (by simp; omega)]
    rfl
  · intro cache reason
    exact ⟨rfl, rfl⟩

/-- Witness for C2 at capacity 16 and a three-second budget. -/
theorem abort_preserves_partial_results_witness :
    (runSession 16 3 5
      [⟨5, some (.identification 10 0 [] 0)⟩,
        ⟨5, some (.identification 20 0 [] 0)⟩,
        ⟨5, some (.abort 0)⟩]).state = .Aborted ∧
    sessionOutput 16 3 5
      [⟨5, some (.identification 10 0 [] 0)⟩,
        ⟨5, some (.identification 20 0 [] 0)⟩,
        ⟨5, some (.abort 0)⟩] = [10, 20] ∧
    (∀ (cache : List DeviceRecord) (reason : Nat),
      cacheStep 16 cache (.abort reason) = cache ∧
      cacheStep 16 cache (.reject reason) = cache) ∧
    (∀ inputs : List IterInput, sessionOutput 16 3 5 inputs =
      printedLines 16 (runSession 16 3 5 inputs).cache) :=
  abort_preserves_partial_results 16 3 5 (by omega) (by omega)

end GlobalWI
